import Mathlib

/-!
Verification of the checkout / revision / transaction-replay / commit engine
of the field-kit entity module (`useEntities`), together with its helper
utilities (`safeCall`, the collection `drop` operation, the link-engine
update callback, and the commit metadata splice).

JavaScript values are embedded as the inductive type `V` below: an
association-list encoding of JSON-style data (undefined, null, booleans,
numbers, strings, arrays, objects).  Arrays and objects are encoded with
cons-style constructors so that structural (deep) equality is decidable,
matching ramda's `equals`, which the source uses for all value comparisons.

The flat field map of an entity (the result of `flattenEntity`) is embedded
as a total function from field names to `V`, with `V.undef` standing for an
absent field, which matches JavaScript property access on a plain object.
-/

/-- A JavaScript value: undefined, null, boolean, number, string, array or
object.  Arrays are encoded as `arrNil`/`arrCons` chains and objects as
ordered association lists built from `objNil`/`objCons`, so that decidable
structural equality (ramda `equals`) can be derived. -/
inductive V where
  | undef
  | null
  | bool (b : Bool)
  | num (n : Int)
  | str (s : String)
  | arrNil
  | arrCons (hd tl : V)
  | objNil
  | objCons (key : String) (val rest : V)
deriving DecidableEq, Repr

/-- Plain JavaScript property access `obj[key]` on an object value: the value
bound to the first occurrence of `key`, or `undefined` when the key is absent
or the receiver is not an object. -/
def getField : V → String → V
  | V.objCons k val rest, key => if key = k then val else getField rest key
  | _, _ => V.undef

/-- Optional-chaining access `obj?.[key]`: yields `undefined` when the
receiver is nullish, otherwise plain property access. -/
def getOpt (v : V) (key : String) : V :=
  match v with
  | V.undef => V.undef
  | V.null => V.undef
  | _ => getField v key

/-- JavaScript falsiness of a value (`!v`): undefined, null, false, 0 and the
empty string are falsy; objects and arrays are always truthy. -/
def falsy : V → Bool
  | V.undef => true
  | V.null => true
  | V.bool b => !b
  | V.num n => n == 0
  | V.str s => s == ""
  | _ => false

/-- JavaScript `Array.isArray`. -/
def V.isArray : V → Bool
  | V.arrNil => true
  | V.arrCons _ _ => true
  | _ => false

/-- Ramda `assoc key val obj`: a copy of the object with `key` bound to
`val`, replacing an existing binding in place or appending a new one.  On a
non-object receiver the result is the one-key object, as with ramda's shallow
clone of a primitive. -/
def setKey : V → String → V → V
  | V.objCons k val rest, key, newVal =>
    if k = key then V.objCons k newVal rest
    else V.objCons k val (setKey rest key newVal)
  | _, key, newVal => V.objCons key newVal V.objNil

/-- Ramda `map f` over an array value (elementwise; non-array values are
returned unchanged, the source only applies it to arrays). -/
def vmapArr (f : V → V) : V → V
  | V.arrCons hd tl => V.arrCons (f hd) (vmapArr f tl)
  | v => v

/-- JavaScript `Object.entries` of an object value (insertion order); empty for
non-objects, matching the spread of a non-object in JavaScript. -/
def entries : V → List (String × V)
  | V.objCons k val rest => (k, val) :: entries rest
  | _ => []

/-- The flattened field map of an entity: field name to value, `V.undef` for
absent fields.  Baselines handed to `replay` are flattened entities
(`flattenEntity`), so the embedding works with flat maps throughout. -/
abbrev FieldMap := String → V

/-- Write one field of a field map (`current[key] = value`). -/
def update (m : FieldMap) (k : String) (v : V) : FieldMap :=
  fun k' => if k' = k then v else m k'

/-- A transaction: a function from the current flattened state to its
proposed partial field map (`Object.entries` of the object it returns). -/
abbrev Tx := FieldMap → List (String × V)

/-- A field delta as produced by `replay`: the set of net-changed fields with
their new values; `none` for fields absent from the delta object. -/
abbrev Delta := String → Option V

/-- Adding a field name to the `fieldSet` (`Set.prototype.add`): appended in
insertion order, never duplicated. -/
def addTouched (tch : List String) (k : String) : List String :=
  if k ∈ tch then tch else tch ++ [k]

/-- One transaction's proposed fields applied to the working snapshot: for
every proposed entry whose value is not structurally equal to the current
value (ramda `notEq`), the snapshot is overwritten and the field recorded as
touched (the inner `Object.entries(txFields).forEach` loop of `replay`). -/
def applyTxFields (cur : FieldMap) (tch : List String) (txFields : List (String × V)) :
    FieldMap × List String :=
  txFields.foldl
    (fun acc kv =>
      if acc.1 kv.1 ≠ kv.2 then (update acc.1 kv.1 kv.2, addTouched acc.2 kv.1) else acc)
    (cur, tch)

/-- The outer `transactions.forEach` loop of `replay`: each transaction is
evaluated against the current working snapshot and its proposed fields
applied. -/
def replayLoop (cur : FieldMap) (tch : List String) : List Tx → FieldMap × List String
  | [] => (cur, tch)
  | tx :: rest =>
    let acc := applyTxFields cur tch (tx cur)
    replayLoop acc.1 acc.2 rest

/-- Replay: `replay(previous, transactions)` folds the ordered transaction list over
a cloned, flattened working snapshot of the baseline, then keep a touched
field in the output delta only if its final value still differs structurally
from the original baseline's value.  Baselines are flat field maps, so
`flatten = clone ∘ flattenEntity` is the identity on contents here; the
clone's heap behaviour is verified separately by the store model below. -/
def replay (previous : FieldMap) (transactions : List Tx) : Delta :=
  let res := replayLoop previous [] transactions
  fun field =>
    if field ∈ res.2 ∧ res.1 field ≠ previous field then some (res.1 field) else none

/-- Applying a field delta over a (flattened) baseline: every delta field is
written over the corresponding field of the baseline. -/
def applyDelta (B : FieldMap) (d : Delta) : FieldMap :=
  fun k => (d k).getD (B k)

/-- A transaction with a fixed proposed field map, independent of the state
it observes — what `revise` builds when handed a plain object of fields. -/
def constTx (m : List (String × V)) : Tx := fun _ => m

/-- Write a list of proposed fields into a field map unconditionally, in
order (later entries win). -/
def writeFields (state : FieldMap) (kvs : List (String × V)) : FieldMap :=
  kvs.foldl (fun st kv => update st kv.1 kv.2) state

/-- Fold several proposed field maps over a field map, in order. -/
def writeAllConst (S : FieldMap) (ms : List (List (String × V))) : FieldMap :=
  ms.foldl writeFields S

/-- The last value proposed for a key in a single field-map list. -/
def lastVal : List (String × V) → String → Option V
  | [], _ => none
  | kv :: rest, k =>
    match lastVal rest k with
    | some v => some v
    | none => if kv.1 = k then some kv.2 else none

/-- The last value proposed for a key across a list of field-map lists. -/
def lastValAll : List (List (String × V)) → String → Option V
  | [], _ => none
  | m :: rest, k =>
    match lastValAll rest k with
    | some v => some v
    | none => lastVal m k

/-- A baseline and a state-dependent transaction for which replay does not
converge after one application of its own delta. -/
def convBase : FieldMap := fun _ => V.num 0

/-- A transaction proposing the numeric successor of the current value of
field x — a legal argument to revise, which accepts arbitrary functions. -/
def convTx : Tx := fun s => [("x", match s "x" with | V.num n => V.num (n + 1) | v => v)]

/-!  Heap model for the clone performed by `flatten = compose(clone, flattenEntity)`:
a store of mutable objects addressed by index, on which `replay`'s writes can be
located.  The baseline lives at `baseAddr`; the working snapshot is a freshly
allocated copy. -/

/-- A store of mutable flattened-entity objects, addressed by index. -/
abbrev Store := List FieldMap

/-- Read the object at an address (reading an unallocated address yields the
empty object). -/
def readObj (s : Store) (a : Nat) : FieldMap :=
  s.getD a (fun _ => V.undef)

/-- Mutate one field of the object at an address (`current[key] = value`). -/
def writeField (s : Store) (a : Nat) (k : String) (v : V) : Store :=
  s.set a (update (readObj s a) k v)

/-- One proposed entry applied to the working snapshot at address `cur`:
written only when structurally unequal to the current value, recording the
field as touched. -/
def replayStoreStep (cur : Nat) (acc : Store × List String) (kv : String × V) :
    Store × List String :=
  if readObj acc.1 cur kv.1 ≠ kv.2 then (writeField acc.1 cur kv.1 kv.2, addTouched acc.2 kv.1)
  else acc

/-- Replay with its heap behaviour explicit: the working snapshot `current`
is a clone of the baseline allocated at a fresh address; every write of a
proposed field value targets that clone; the final delta compares the clone
against the untouched baseline object. -/
def replayStore (s : Store) (baseAddr : Nat) (txs : List Tx) : Store × Delta :=
  let cur := s.length
  let s1 := s ++ [readObj s baseAddr]
  let res := txs.foldl (fun acc tx => (tx (readObj acc.1 cur)).foldl (replayStoreStep cur) acc) (s1, [])
  (res.1,
    fun field =>
      if field ∈ res.2 ∧ readObj res.1 cur field ≠ readObj res.1 baseAddr field
      then some (readObj res.1 cur field) else none)

/-!  The per-entity bookkeeping relevant to the commit/revise race: the
revision's live reactive state, its transaction log, the per-entity queue of
pending commit tasks (each holding the transaction list it captured at call
time), and the durable backup log written by `backupTransactions`. -/

structure EngineState where
  state : FieldMap
  transactions : List Tx
  queued : List (List Tx)
  backup : List (List (String × V))

/-- Revise: `revise(reference, transaction)` evaluates the transaction against the
reference (the live state), push it onto the revision's current transaction
log, back up the produced fields, and emit them into the live state. -/
def reviseStep (st : EngineState) (tx : Tx) : EngineState :=
  let fields := tx st.state
  { st with
    transactions := st.transactions ++ [tx]
    backup := st.backup ++ [fields]
    state := writeFields st.state fields }

/-- The synchronous prefix of `commit(reference)`: copy the revision's
transaction log (`[...revision.transactions]`), atomically replace the log
with a fresh empty list, and enqueue a task holding the captured copy. -/
def commitStep (st : EngineState) : EngineState :=
  { st with
    transactions := []
    queued := st.queued ++ [st.transactions] }

/-- The queued commit task's replay step: it replays exactly the transaction
list captured when `commit` was called, against the baseline handed to it by
the per-entity queue. -/
def runCommitTask (previous : FieldMap) (captured : List Tx) : Delta :=
  replay previous captured

/-!  Checkout of a single entity. -/

/-- A task on the per-entity serialized queue: the initializer pushed by
`createEntity`, or the cache-load-then-remote-sync sequence pushed by
`checkout` for an entity with a valid id. -/
inductive QueueTask where
  | init
  | load (entity : String) (id : String)
deriving DecidableEq, Repr

/-- The revision record built by `createEntity`, projected to the parts the
checkout claims observe: kind, bundle type, id, restored transaction log, and
queued tasks. -/
structure Revision where
  entity : String
  type : String
  id : String
  transactions : List Tx
  queue : List QueueTask

/-- Create a new entity: `createEntity(entity, type, id)` keeps the id when it is a valid
identifier, otherwise generate a fresh one; restore any backed-up
transactions for (entity, type, id) into the new transaction log; push the
initializer onto the fresh queue.  `validate` is the uuid validator and
`restore` the backup collaborator, both external. -/
def createEntity (validate : String → Bool) (freshId : String)
    (restore : String → String → String → List Tx)
    (entity type id : String) : Revision :=
  let _id := if validate id then id else freshId
  { entity := entity
    type := type
    id := _id
    transactions := restore entity type _id
    queue := [QueueTask.init] }

/-- Checkout: `checkout(entity, type, id)` on the single-entity path (scalar type and
id; the filter-object dispatch to checkoutCollection is not taken): reject an
unknown entity kind, create the revision, and — only when the id is a valid
identifier — enqueue the cache-load/remote-sync task.  A brand-new entity
returns early with no load task. -/
def checkout (known : List String) (validate : String → Bool) (freshId : String)
    (restore : String → String → String → List Tx)
    (entity type id : String) : Except String Revision :=
  if entity ∉ known then Except.error "Checkout failed; invalid entity name"
  else
    let rev := createEntity validate freshId restore entity type id
    if validate id = false then Except.ok rev
    else Except.ok { rev with queue := rev.queue ++ [QueueTask.load entity id] }

/-!  `drop(collectionReference, id)`: remove an entity from a checked-out
collection, embedded with JavaScript `findIndex` / `splice` / indexing
semantics. -/

/-- JavaScript `Array.prototype.findIndex`: the index of the first element satisfying
the predicate, or -1 when none does. -/
def findIndexJs (p : α → Bool) : List α → Int
  | [] => -1
  | x :: xs =>
    if p x then 0
    else
      let r := findIndexJs p xs
      if r < 0 then -1 else r + 1

/-- JavaScript `Array.prototype.splice(start, 1)`: delete one element at `start`, where
a negative `start` counts from the end of the array (clamped at 0) and a
too-large `start` deletes nothing. -/
def spliceOneJs (xs : List α) (start : Int) : List α :=
  let s : Nat := if start < 0 then (start + xs.length).toNat else min start.toNat xs.length
  xs.take s ++ xs.drop (s + 1)

/-- JavaScript index access `arr[i]`: `undefined` for a negative or
out-of-range index. -/
def atJs (xs : List α) (i : Int) : Option α :=
  if i < 0 then none else xs.get? i.toNat

/-- A member reference held in a collection's state: its entity id, plus a
tag distinguishing distinct references. -/
structure Member where
  id : String
  tag : Nat
deriving DecidableEq, Repr

/-- Drop: `drop(collectionReference, id)` finds the index of the member whose id
equals the given id, read the reference at that index, splice one element out
of the member list at that index, and return the new list with the reference
read (which is `undefined` when no member matched). -/
def dropMember (collectionState : List Member) (ident : String) : List Member × Option Member :=
  let i := findIndexJs (fun item => item.id == ident) collectionState
  let itemRef := atJs collectionState i
  (spliceOneJs collectionState i, itemRef)

/-!  Listener notification.  A handler may throw; this is embedded in the
`Except` monad, where `Except.error` is a thrown exception propagating out of
the notification point and `Except.ok` a normal return.  `safeCall` is the
try/catch wrapper from utils/safeCall: it runs the callback and swallows any
exception (logging it), so it never produces an error itself. -/

/-- A registered load/sync listener: called with the notified value, may
throw. -/
abbrev Handler := V → Except String Unit

/-- Safe call: `safeCall(callback, ...args)` tries the callback; on exception, log it and
return normally. -/
def safeCall (callback : Handler) (v : V) : Except String Unit :=
  match callback v with
  | Except.ok _ => Except.ok ()
  | Except.error _ => Except.ok ()

/-- The loop `listeners.forEach((fn) => safeCall(fn, v))`. -/
def forEachSafeCall : List Handler → V → Except String Unit
  | [], _ => Except.ok ()
  | fn :: rest, v => do
    _ ← safeCall fn v
    forEachSafeCall rest v

/-- The loop `listeners.forEach((fn) => fn(v))` — a throwing listener aborts the
loop and the exception propagates. -/
def forEachDirect : List Handler → V → Except String Unit
  | [], _ => Except.ok ()
  | fn :: rest, v => do
    _ ← fn v
    forEachDirect rest v

/-- The fields emitted by `emit(state, data)`: the entity's attributes, then
relationships, then any remaining top-level fields other than id, type, meta,
attributes and relationships (`{...attributes, ...relationships, ...rest}`). -/
def emitFieldList (data : V) : List (String × V) :=
  entries (getField data "attributes") ++ entries (getField data "relationships") ++
    (entries data).filter
      (fun kv => kv.1 ∉ (["id", "type", "meta", "attributes", "relationships"] : List String))

/-- Emit: `emit(state, data)` writes each emitted field into the live state. -/
def emit (state : FieldMap) (data : V) : FieldMap :=
  writeFields state (emitFieldList data)

/-- The value branch of `syncHandler`'s interceptor: emit the synced value
into the live state, then notify each sync listener through `safeCall`
(caching follows, with its own failure handling, external here). -/
def syncHandlerNotify (state : FieldMap) (listenersSync : List Handler) (value : V) :
    Except String FieldMap := do
  let st := emit state value
  _ ← forEachSafeCall listenersSync value
  pure st

/-- The cache-load branch of `checkout`'s queued task: emit the cached data
into the live state, then notify each load listener through `safeCall`. -/
def loadNotify (state : FieldMap) (listenersLoad : List Handler) (data : V) :
    Except String FieldMap := do
  let st := emit state data
  _ ← forEachSafeCall listenersLoad data
  pure st

/-- The completion step of `checkoutCollection`: notify each sync listener
directly with the sync results, then replay every member's pending
transactions over its state (emitting the resulting delta). -/
def collectionSyncNotify (listenersSync : List Handler) (resultsData : V)
    (members : List (FieldMap × List Tx)) : Except String (List FieldMap) := do
  _ ← forEachDirect listenersSync resultsData
  pure (members.map (fun member => applyDelta member.1 (replay member.1 member.2)))

/-!  The dependency-metadata splice in `commit`: each dependent commit
response, keyed by relationship name, yields the final value of that
relationship field.  The remote revision attributes are read from
`response.meta?.remote?.meta?.attributes || {}`.  The first access,
`response.meta`, is unguarded: it throws a TypeError when the dependent
commit resolved with no sync data — `commit`'s final step destructures
`({ data: [value] = [] } = {})` and resolves with `value`, which is
`undefined` whenever the sync evaluation carried no data, the normal offline
path.  A thrown TypeError is embedded as `Except.error`, as with the
listener notifications above; past the first access, when the expected
`drupal_internal__id` is absent (falsy), the replayed field value is returned
unchanged. -/

/-- Plain JavaScript property access `obj.key` where the receiver may be
nullish: reading a property of undefined or null throws a TypeError;
otherwise the property is read. -/
def getFieldStrict (v : V) (key : String) : Except String V :=
  match v with
  | V.undef => Except.error "TypeError: cannot read properties of undefined"
  | V.null => Except.error "TypeError: cannot read properties of null"
  | _ => Except.ok (getField v key)

/-- The path `response.meta?.remote?.meta?.attributes`: the first access is
unguarded and throws on a nullish response; the remaining accesses are
optional-chained. -/
def remoteMetaAttrs (response : V) : Except String V :=
  match getFieldStrict response "meta" with
  | Except.error e => Except.error e
  | Except.ok m => Except.ok (getOpt (getOpt (getOpt m "remote") "meta") "attributes")

/-- The expected remote identifier carried by a dependent commit response:
`drupal_internal__id` of its remote revision attributes, propagating the
TypeError of a nullish response. -/
def remoteTargetId (response : V) : Except String V :=
  match remoteMetaAttrs response with
  | Except.error e => Except.error e
  | Except.ok attrs => Except.ok (getField attrs "drupal_internal__id")

/-- The per-relationship body of the `mapObjIndexed` splice in `commit`:
read the remote revision attributes (throwing on a nullish response,
defaulting a falsy attributes value to the empty object); if the expected
identifier is falsy, return the replayed field value unchanged; otherwise
build the meta object and attach it — to the single resource identifier of a
to-one relationship, or to the list element whose id equals the response's id
for a to-many relationship. -/
def spliceMeta (response : V) (fieldValue : V) : Except String V :=
  match remoteMetaAttrs response with
  | Except.error e => Except.error e
  | Except.ok attrsRaw =>
    let attrs := if falsy attrsRaw then V.objNil else attrsRaw
    let target_revision_id := getField attrs "drupal_internal__revision_id"
    let targetId := getField attrs "drupal_internal__id"
    if falsy targetId then Except.ok fieldValue
    else
      let meta := V.objCons "target_revision_id" target_revision_id
        (V.objCons "drupal_internal__target_id" targetId V.objNil)
      if fieldValue.isArray then
        Except.ok (vmapArr
          (fun rid => if getField rid "id" = getField response "id" then setKey rid "meta" meta else rid)
          fieldValue)
      else Except.ok (setKey fieldValue "meta" meta)

/-- The whole splice step (`mapObjIndexed` over the dependent responses keyed
by relationship): map each pair to the relationship's final field value; a
TypeError thrown for one relationship propagates out of the whole splice. -/
def commitSpliceFields (fields : String → V) :
    List (String × V) → Except String (List (String × V))
  | [] => Except.ok []
  | dep :: rest =>
    match spliceMeta dep.2 (fields dep.1) with
    | Except.error e => Except.error e
    | Except.ok v =>
      match commitSpliceFields fields rest with
      | Except.error e => Except.error e
      | Except.ok tail => Except.ok ((dep.1, v) :: tail)

/-!  The link engine's update callback, on the single-identifier path: the
watcher on the source's relationship field receives the next and previous
values.  `validate` is the uuid validator supplied by the external uuid
library; applied to a JavaScript value it is false for any non-string. -/

/-- uuid `validate` applied to a JavaScript value. -/
def validateV (validate : String → Bool) (v : V) : Bool :=
  match v with
  | V.str s => validate s
  | _ => false

/-- The observable outcome of the single-identifier part of the link
update callback: whether the empty branch cleared the satellite, whether an
old dependency edge was deleted, the (entity, type, id) arguments passed to
the nested `checkout` (whose result becomes the satellite's new backing
revision), and the relationship name recorded as a dependency edge for it. -/
structure LinkSingleOut where
  satelliteCleared : Bool
  droppedOldDep : Bool
  checkedOut : Option (String × V × V)
  recordedDep : Option String
deriving DecidableEq, Repr

/-- The first two branches of `update(next, prev)` in `link`: clear the
satellite when the field emptied out, and — when the next value carries a
valid id different from the previous id — drop the old dependency edge, call
`checkout(entity, next.type, prev.id)`, adopt the result as the satellite and
record the dependency edge under the relationship name.  The unguarded
`prev.id` access throws a TypeError when `prev` is nullish. -/
def linkUpdateSingle (validate : String → Bool) (entity relationship : String)
    (prev next : V) : Except String LinkSingleOut :=
  let clearBranch := falsy next && validateV validate (getOpt prev "id")
  if validateV validate (getOpt next "id") && (getOpt next "id" != getOpt prev "id") then
    match prev with
    | V.undef => Except.error "TypeError: cannot read id of undefined"
    | V.null => Except.error "TypeError: cannot read id of null"
    | _ =>
      Except.ok
        { satelliteCleared := clearBranch
          droppedOldDep := true
          checkedOut := some (entity, getField next "type", getField prev "id")
          recordedDep := some relationship }
  else
    Except.ok
      { satelliteCleared := clearBranch
        droppedOldDep := clearBranch
        checkedOut := none
        recordedDep := none }

/-- The previous relationship value: a valid resource identifier. -/
def prevIdent : V :=
  V.objCons "id" (V.str "11111111-1111-1111-1111-111111111111")
    (V.objCons "type" (V.str "log--activity") V.objNil)

/-- The next relationship value: a valid resource identifier with a different
id. -/
def nextIdent : V :=
  V.objCons "id" (V.str "22222222-2222-2222-2222-222222222222")
    (V.objCons "type" (V.str "log--activity") V.objNil)

/-- A uuid validator accepting exactly the two identifiers above. -/
def linkValidate : String → Bool := fun s =>
  s == "11111111-1111-1111-1111-111111111111" || s == "22222222-2222-2222-2222-222222222222"

/-!  Lemmas and claim theorems. -/

lemma update_self (m : FieldMap) (k : String) : update m k (m k) = m := by
  funext k'
  unfold update
  by_cases h : k' = k <;> simp [h]

lemma applyTxFields_cons (cur : FieldMap) (tch : List String) (kv : String × V)
    (rest : List (String × V)) :
    applyTxFields cur tch (kv :: rest) =
      if cur kv.1 ≠ kv.2 then
        applyTxFields (update cur kv.1 kv.2) (addTouched tch kv.1) rest
      else applyTxFields cur tch rest := by
  by_cases h : cur kv.1 = kv.2 <;> simp [applyTxFields, h]

lemma writeFields_cons (cur : FieldMap) (kv : String × V) (rest : List (String × V)) :
    writeFields cur (kv :: rest) = writeFields (update cur kv.1 kv.2) rest := rfl

lemma applyTxFields_fst (m : List (String × V)) :
    ∀ cur tch, (applyTxFields cur tch m).1 = writeFields cur m := by
  induction m with
  | nil => intro cur tch; rfl
  | cons kv rest ih =>
    intro cur tch
    rw [applyTxFields_cons, writeFields_cons]
    by_cases h : cur kv.1 = kv.2
    · rw [if_neg (not_not_intro h), ih]
      have hu : update cur kv.1 kv.2 = cur := by
        rw [← h]; exact update_self cur kv.1
      rw [hu]
    · rw [if_pos h]
      exact ih _ _

lemma replayLoop_fst_const (ms : List (List (String × V))) :
    ∀ cur tch, (replayLoop cur tch (ms.map constTx)).1 = writeAllConst cur ms := by
  induction ms with
  | nil => intro cur tch; rfl
  | cons m rest ih =>
    intro cur tch
    simp only [List.map_cons, replayLoop, constTx]
    rw [ih, applyTxFields_fst]
    rfl

lemma writeFields_apply (m : List (String × V)) :
    ∀ (S : FieldMap) (k : String), writeFields S m k = (lastVal m k).getD (S k) := by
  induction m with
  | nil => intro S k; rfl
  | cons kv rest ih =>
    intro S k
    rw [writeFields_cons, ih]
    cases h : lastVal rest k with
    | some v => simp [lastVal, h]
    | none =>
      simp only [lastVal, h]
      by_cases hk : kv.1 = k
      · simp [hk, update]
      · have hk' : ¬ k = kv.1 := fun he => hk he.symm
        simp [hk, hk', update]

lemma writeAllConst_apply (ms : List (List (String × V))) :
    ∀ (S : FieldMap) (k : String), writeAllConst S ms k = (lastValAll ms k).getD (S k) := by
  induction ms with
  | nil => intro S k; rfl
  | cons m rest ih =>
    intro S k
    have hstep : writeAllConst S (m :: rest) = writeAllConst (writeFields S m) rest := rfl
    rw [hstep, ih]
    cases h : lastValAll rest k with
    | some v => simp [lastValAll, h]
    | none => simp [lastValAll, h, writeFields_apply]

lemma writeAllConst_idem (ms : List (List (String × V))) (S : FieldMap) (k : String) :
    writeAllConst (writeAllConst S ms) ms k = writeAllConst S ms k := by
  rw [writeAllConst_apply, writeAllConst_apply]
  cases h : lastValAll ms k <;> simp

lemma subset_addTouched (tch : List String) (k : String) : tch ⊆ addTouched tch k := by
  unfold addTouched
  by_cases h : k ∈ tch <;> simp [h]

lemma mem_addTouched_self (tch : List String) (k : String) : k ∈ addTouched tch k := by
  unfold addTouched
  by_cases h : k ∈ tch <;> simp [h]

lemma applyTxFields_touched_mono (m : List (String × V)) :
    ∀ cur tch, tch ⊆ (applyTxFields cur tch m).2 := by
  induction m with
  | nil => intro cur tch; exact fun _ h => h
  | cons kv rest ih =>
    intro cur tch
    rw [applyTxFields_cons]
    by_cases h : cur kv.1 = kv.2
    · rw [if_neg (not_not_intro h)]; exact ih _ _
    · rw [if_pos h]
      exact Trans.trans (subset_addTouched tch kv.1) (ih _ _)

lemma applyTxFields_untouched (m : List (String × V)) :
    ∀ cur tch k, k ∉ (applyTxFields cur tch m).2 → (applyTxFields cur tch m).1 k = cur k := by
  induction m with
  | nil => intro cur tch k _; rfl
  | cons kv rest ih =>
    intro cur tch k hk
    rw [applyTxFields_cons] at hk ⊢
    by_cases h : cur kv.1 = kv.2
    · rw [if_neg (not_not_intro h)] at hk ⊢
      exact ih _ _ _ hk
    · rw [if_pos h] at hk ⊢
      rw [ih _ _ _ hk]
      have hkv : kv.1 ∈ (applyTxFields (update cur kv.1 kv.2) (addTouched tch kv.1) rest).2 :=
        applyTxFields_touched_mono rest _ _ (mem_addTouched_self tch kv.1)
      have hne : ¬ k = kv.1 := fun he => hk (he ▸ hkv)
      simp [update, hne]

lemma replayLoop_touched_mono (txs : List Tx) :
    ∀ cur tch, tch ⊆ (replayLoop cur tch txs).2 := by
  induction txs with
  | nil => intro cur tch; exact fun _ h => h
  | cons tx rest ih =>
    intro cur tch
    simp only [replayLoop]
    exact Trans.trans (applyTxFields_touched_mono (tx cur) cur tch) (ih _ _)

lemma replayLoop_untouched (txs : List Tx) :
    ∀ cur tch k, k ∉ (replayLoop cur tch txs).2 → (replayLoop cur tch txs).1 k = cur k := by
  induction txs with
  | nil => intro cur tch k _; rfl
  | cons tx rest ih =>
    intro cur tch k hk
    simp only [replayLoop] at hk ⊢
    rw [ih _ _ _ hk]
    have hnot : k ∉ (applyTxFields cur tch (tx cur)).2 := fun hmem =>
      hk (replayLoop_touched_mono rest _ _ hmem)
    exact applyTxFields_untouched (tx cur) cur tch k hnot

lemma applyDelta_replay_const (B : FieldMap) (ms : List (List (String × V))) :
    applyDelta B (replay B (ms.map constTx)) = writeAllConst B ms := by
  funext k
  simp only [applyDelta, replay]
  by_cases hc :
      k ∈ (replayLoop B [] (ms.map constTx)).2 ∧ (replayLoop B [] (ms.map constTx)).1 k ≠ B k
  · rw [if_pos hc]
    simp only [Option.getD_some]
    rw [← replayLoop_fst_const ms B []]
  · rw [if_neg hc]
    simp only [Option.getD_none]
    rw [← replayLoop_fst_const ms B []]
    rcases not_and_or.mp hc with hmem | hval
    · exact (replayLoop_untouched (ms.map constTx) B [] k hmem).symm
    · exact (not_not.mp hval).symm

/-- claim C4 -/
theorem replay_empty_transactions (B : FieldMap) : replay B [] = fun _ => none := by
  funext k
  simp [replay, replayLoop]

/-- counterexample to claim C2 as stated -/
theorem replay_convergence_counterexample :
    replay (applyDelta convBase (replay convBase [convTx])) [convTx] "x" = some (V.num 2) ∧
      ¬ ∀ field, replay (applyDelta convBase (replay convBase [convTx])) [convTx] field = none := by
  constructor
  · decide
  · intro h
    exact absurd (h "x") (by decide)

/-- claim C2, amended: convergence for transaction lists made of constant
(state-independent) proposed field maps -/
theorem replay_convergence_constant_transactions (B : FieldMap)
    (ms : List (List (String × V))) :
    replay (applyDelta B (replay B (ms.map constTx))) (ms.map constTx) = fun _ => none := by
  funext k
  simp only [replay]
  have hfst :
      (replayLoop (applyDelta B (replay B (ms.map constTx))) [] (ms.map constTx)).1 k =
        applyDelta B (replay B (ms.map constTx)) k := by
    rw [replayLoop_fst_const ms _ [], applyDelta_replay_const, writeAllConst_idem,
      ← applyDelta_replay_const B ms]
  rw [if_neg]
  intro hc
  exact hc.2 hfst

/-- claim C3 -/
theorem replay_noop_elision (B : FieldMap) (x : String) (v : V) (hne : v ≠ B x) :
    replay B [constTx [(x, v)], constTx [(x, B x)]] x = none := by
  have hmap : [constTx [(x, v)], constTx [(x, B x)]] =
      List.map constTx [[(x, v)], [(x, B x)]] := rfl
  rw [hmap]
  simp only [replay]
  rw [if_neg]
  intro hc
  apply hc.2
  rw [replayLoop_fst_const _ B [], writeAllConst_apply]
  simp [lastValAll, lastVal]

/-- witness for claim C3 -/
theorem replay_noop_elision_witness :
    V.num 1 ≠ convBase "x" ∧
      replay convBase [constTx [("x", V.num 1)], constTx [("x", convBase "x")]] "x" = none :=
  ⟨by decide, replay_noop_elision convBase "x" (V.num 1) (by decide)⟩

lemma readObj_set_ne (s : Store) (i : Nat) (o : FieldMap) (a : Nat) (h : a ≠ i) :
    readObj (s.set i o) a = readObj s a := by
  induction s generalizing i a with
  | nil => rfl
  | cons hd tl ih =>
    cases i with
    | zero =>
      cases a with
      | zero => exact absurd rfl h
      | succ a' => simp [readObj, List.set]
    | succ i' =>
      cases a with
      | zero => simp [readObj, List.set]
      | succ a' =>
        simp only [List.set, readObj, List.getD_cons_succ]
        exact ih i' a' (fun he => h (congrArg Nat.succ he))

lemma readObj_append_lt (s : Store) (x : FieldMap) (a : Nat) (h : a < s.length) :
    readObj (s ++ [x]) a = readObj s a := by
  induction s generalizing a with
  | nil => exact absurd h (Nat.not_lt_zero a)
  | cons hd tl ih =>
    cases a with
    | zero => rfl
    | succ a' =>
      simp only [List.cons_append, readObj, List.getD_cons_succ]
      exact ih a' (Nat.lt_of_succ_lt_succ h)

lemma replayStoreStep_frame (cur a : Nat) (h : a ≠ cur) (acc : Store × List String)
    (kv : String × V) :
    readObj (replayStoreStep cur acc kv).1 a = readObj acc.1 a := by
  unfold replayStoreStep
  by_cases hc : readObj acc.1 cur kv.1 ≠ kv.2
  · rw [if_pos hc]
    exact readObj_set_ne acc.1 cur _ a h
  · rw [if_neg hc]

lemma replayStoreFields_frame (cur a : Nat) (h : a ≠ cur) (m : List (String × V)) :
    ∀ acc, readObj (m.foldl (replayStoreStep cur) acc).1 a = readObj acc.1 a := by
  induction m with
  | nil => intro acc; rfl
  | cons kv rest ih =>
    intro acc
    rw [List.foldl_cons, ih]
    exact replayStoreStep_frame cur a h acc kv

lemma replayStoreTxs_frame (cur a : Nat) (h : a ≠ cur) (txs : List Tx) :
    ∀ acc : Store × List String,
      readObj ((txs.foldl
        (fun st t => (t (readObj st.1 cur)).foldl (replayStoreStep cur) st) acc).1) a =
      readObj acc.1 a := by
  induction txs with
  | nil => intro acc; rfl
  | cons tx rest ih =>
    intro acc
    rw [List.foldl_cons, ih]
    exact replayStoreFields_frame cur a h (tx (readObj acc.1 cur)) acc

/-- claim C9 -/
theorem replay_preserves_baseline (s : Store) (baseAddr : Nat) (txs : List Tx)
    (h : baseAddr < s.length) :
    readObj (replayStore s baseAddr txs).1 baseAddr = readObj s baseAddr := by
  have hne : baseAddr ≠ s.length := Nat.ne_of_lt h
  simp only [replayStore]
  rw [replayStoreTxs_frame s.length baseAddr hne txs (s ++ [readObj s baseAddr], [])]
  exact readObj_append_lt s (readObj s baseAddr) baseAddr h

/-- witness for claim C9 -/
theorem replay_preserves_baseline_witness :
    0 < ([fun _ => V.num 7] : Store).length ∧
      readObj (replayStore [fun _ => V.num 7] 0 [constTx [("x", V.num 1)]]).1 0 =
        readObj [fun _ => V.num 7] 0 :=
  ⟨by decide, replay_preserves_baseline [fun _ => V.num 7] 0 [constTx [("x", V.num 1)]] (by decide)⟩

/-- claim C1 -/
theorem commit_revise_race (st : EngineState) (tx : Tx) (previous : FieldMap)
    (h : tx ∉ st.transactions) :
    ∃ captured,
      (commitStep st).queued = st.queued ++ [captured] ∧
      captured = st.transactions ∧
      tx ∉ captured ∧
      runCommitTask previous captured = replay previous st.transactions ∧
      (reviseStep (commitStep st) tx).queued = st.queued ++ [captured] ∧
      (reviseStep (commitStep st) tx).transactions = [tx] ∧
      (commitStep (reviseStep (commitStep st) tx)).queued = st.queued ++ [captured] ++ [[tx]] :=
  ⟨st.transactions, rfl, rfl, h, rfl, rfl, rfl, rfl⟩

/-- witness for claim C1 -/
theorem commit_revise_race_witness :
    constTx [("name", V.str "A")] ∉ (⟨fun _ => V.undef, [], [], []⟩ : EngineState).transactions ∧
      ∃ captured,
        (commitStep ⟨fun _ => V.undef, [], [], []⟩).queued = [] ++ [captured] ∧
        captured = [] ∧
        constTx [("name", V.str "A")] ∉ captured ∧
        runCommitTask (fun _ => V.undef) captured = replay (fun _ => V.undef) [] ∧
        (reviseStep (commitStep ⟨fun _ => V.undef, [], [], []⟩)
            (constTx [("name", V.str "A")])).queued = [] ++ [captured] ∧
        (reviseStep (commitStep ⟨fun _ => V.undef, [], [], []⟩)
            (constTx [("name", V.str "A")])).transactions = [constTx [("name", V.str "A")]] ∧
        (commitStep (reviseStep (commitStep ⟨fun _ => V.undef, [], [], []⟩)
            (constTx [("name", V.str "A")]))).queued =
          [] ++ [captured] ++ [[constTx [("name", V.str "A")]]] :=
  ⟨List.not_mem_nil _,
    commit_revise_race ⟨fun _ => V.undef, [], [], []⟩ (constTx [("name", V.str "A")])
      (fun _ => V.undef) (List.not_mem_nil _)⟩

/-- claim C5 -/
theorem checkout_brand_new_entity (known : List String) (validate : String → Bool)
    (freshId : String) (restore : String → String → String → List Tx)
    (entity type id : String)
    (hk : entity ∈ known) (hid : validate id = false) :
    checkout known validate freshId restore entity type id =
      Except.ok (createEntity validate freshId restore entity type id) ∧
    (createEntity validate freshId restore entity type id).queue = [QueueTask.init] ∧
    (∀ e i, QueueTask.load e i ∉ (createEntity validate freshId restore entity type id).queue) ∧
    (createEntity validate freshId restore entity type id).transactions =
      restore entity type freshId := by
  refine ⟨?_, rfl, ?_, ?_⟩
  · simp [checkout, hk, hid]
  · intro e i
    simp [createEntity]
  · simp [createEntity, hid]

/-- witness for claim C5 -/
theorem checkout_brand_new_entity_witness :
    "log" ∈ ["log"] ∧ (fun (_ : String) => false) "" = false ∧
      checkout ["log"] (fun _ => false) "fresh-id"
          (fun _ _ _ => [constTx [("name", V.str "A")]]) "log" "log--activity" "" =
        Except.ok (createEntity (fun _ => false) "fresh-id"
          (fun _ _ _ => [constTx [("name", V.str "A")]]) "log" "log--activity" "") :=
  ⟨by decide, rfl,
    (checkout_brand_new_entity ["log"] (fun _ => false) "fresh-id"
      (fun _ _ _ => [constTx [("name", V.str "A")]]) "log" "log--activity" ""
      (by decide) rfl).1⟩

lemma findIndexJs_neg_iff (p : α → Bool) :
    ∀ xs : List α, findIndexJs p xs < 0 ↔ xs.find? p = none := by
  intro xs
  induction xs with
  | nil => simp [findIndexJs]
  | cons x xs ih =>
    by_cases hp : p x
    · simp [findIndexJs, hp]
    · simp only [findIndexJs, hp, if_false, List.find?_cons_of_neg _ hp]
      by_cases hr : findIndexJs p xs < 0
      · simp [hr, ← ih]
      · simp only [hr, if_false]
        constructor
        · intro hlt; omega
        · intro hnone; exact absurd (ih.mpr hnone) hr

lemma atJs_findIndexJs (p : α → Bool) :
    ∀ xs : List α, atJs xs (findIndexJs p xs) = xs.find? p := by
  intro xs
  induction xs with
  | nil => simp [findIndexJs, atJs]
  | cons x xs ih =>
    by_cases hp : p x
    · simp [findIndexJs, hp, atJs, List.find?_cons_of_pos _ hp]
    · simp only [findIndexJs, hp, if_false, List.find?_cons_of_neg _ hp]
      by_cases hr : findIndexJs p xs < 0
      · simp only [hr, if_true]
        rw [← ih]
        simp only [atJs, hr, if_pos]
        · norm_num
      · simp only [hr, if_false]
        have h0 : ¬ (findIndexJs p xs + 1 < 0) := by omega
        have ht : (findIndexJs p xs + 1).toNat = (findIndexJs p xs).toNat + 1 := by omega
        rw [← ih]
        simp [atJs, h0, ht, hr]

lemma findIndexJs_cons_pos {p : α → Bool} {x : α} (xs : List α) (hp : p x = true) :
    findIndexJs p (x :: xs) = 0 := by
  simp [findIndexJs, hp]

lemma findIndexJs_cons_neg {p : α → Bool} {x : α} (xs : List α) (hp : ¬ p x = true) :
    findIndexJs p (x :: xs) =
      if findIndexJs p xs < 0 then -1 else findIndexJs p xs + 1 := by
  simp [findIndexJs, hp]

lemma spliceOneJs_neg_one (xs : List α) : spliceOneJs xs (-1) = xs.dropLast := by
  cases xs with
  | nil => rfl
  | cons y ys =>
    have hs : ((-1 : Int) + ((y :: ys).length : Int)).toNat = ys.length := by
      simp only [List.length_cons]; omega
    simp only [spliceOneJs, if_pos (show (-1 : Int) < 0 by omega), hs]
    rw [show ys.length + 1 = (y :: ys).length from rfl, List.drop_length]
    rw [List.dropLast_eq_take]
    simp

lemma spliceOneJs_findIndexJs (p : α → Bool) :
    ∀ xs : List α, spliceOneJs xs (findIndexJs p xs) =
      if (xs.find? p).isSome then xs.eraseP p else xs.dropLast := by
  intro xs
  induction xs with
  | nil => simp [findIndexJs, spliceOneJs]
  | cons x xs ih =>
    by_cases hp : p x
    · rw [findIndexJs_cons_pos xs hp]
      simp only [List.find?_cons_of_pos _ hp, Option.isSome_some, if_pos,
        List.eraseP_cons_of_pos hp]
      simp only [spliceOneJs]
      norm_num
    · rw [findIndexJs_cons_neg xs hp]
      by_cases hr : findIndexJs p xs < 0
      · rw [if_pos hr, spliceOneJs_neg_one]
        have hnone : (x :: xs).find? p = none := by
          rw [List.find?_cons_of_neg _ hp]
          exact (findIndexJs_neg_iff p xs).mp hr
        simp [hnone]
      · rw [if_neg hr]
        have h1 : ¬ (findIndexJs p xs + 1 < 0) := by omega
        have h2 : (findIndexJs p xs + 1).toNat = (findIndexJs p xs).toNat + 1 := by omega
        have hstep : spliceOneJs (x :: xs) (findIndexJs p xs + 1) =
            x :: spliceOneJs xs (findIndexJs p xs) := by
          simp only [spliceOneJs, if_neg h1, if_neg hr, h2, List.length_cons,
            Nat.succ_min_succ]
          simp [List.take_succ_cons, List.drop_succ_cons]
        rw [hstep, ih]
        have hsome : (xs.find? p).isSome := by
          cases hf : xs.find? p with
          | none => exact absurd ((findIndexJs_neg_iff p xs).mpr hf) hr
          | some m => simp
        rw [if_pos hsome]
        have hsome' : ((x :: xs).find? p).isSome := by
          rwa [List.find?_cons_of_neg _ hp]
        rw [if_pos hsome', List.eraseP_cons_of_neg hp]

/-- counterexample to claim C10 as stated -/
theorem drop_no_match_counterexample :
    (∀ m ∈ [Member.mk "a" 1, Member.mk "b" 2], m.id ≠ "z") ∧
      (dropMember [Member.mk "a" 1, Member.mk "b" 2] "z").1 = [Member.mk "a" 1] ∧
      (dropMember [Member.mk "a" 1, Member.mk "b" 2] "z").1 ≠ [Member.mk "a" 1, Member.mk "b" 2] ∧
      (dropMember [Member.mk "a" 1, Member.mk "b" 2] "z").2 = none := by
  decide

/-- claim C10, amended -/
theorem drop_member_characterization (xs : List Member) (ident : String) :
    (dropMember xs ident).2 = xs.find? (fun m => m.id == ident) ∧
    (dropMember xs ident).1 =
      (if (xs.find? (fun m => m.id == ident)).isSome
       then xs.eraseP (fun m => m.id == ident) else xs.dropLast) :=
  ⟨atJs_findIndexJs _ xs, spliceOneJs_findIndexJs _ xs⟩

lemma forEachSafeCall_ok (l : List Handler) (v : V) : forEachSafeCall l v = Except.ok () := by
  induction l with
  | nil => rfl
  | cons fn rest ih =>
    simp only [forEachSafeCall, safeCall]
    cases fn v <;> simpa using ih

/-- counterexample to claim C8 as stated -/
theorem listener_throw_propagates_counterexample :
    collectionSyncNotify [fun _ => Except.error "boom"] V.null [(fun _ => V.undef, [])] =
      Except.error "boom" := rfl

/-- claim C8, amended -/
theorem safecall_notification_preserves_state (state : FieldMap)
    (listenersLoad listenersSync : List Handler) (data value : V) :
    loadNotify state listenersLoad data = Except.ok (emit state data) ∧
    syncHandlerNotify state listenersSync value = Except.ok (emit state value) := by
  constructor <;> simp [loadNotify, syncHandlerNotify, forEachSafeCall_ok]

/-- counterexample to claim C7 as stated: a dependent commit that resolved
with no sync data hands `undefined` to the splice, whose unguarded
`response.meta` access then throws a TypeError instead of returning the
relationship field value unchanged -/
theorem commit_splice_throws_counterexample :
    spliceMeta V.undef (V.str "q-ref") =
      Except.error "TypeError: cannot read properties of undefined" ∧
    commitSpliceFields (fun _ => V.str "q-ref") [("quantity", V.undef)] =
      Except.error "TypeError: cannot read properties of undefined" :=
  ⟨rfl, rfl⟩

/-- claim C7, amended: for a dependent commit response on which reading the
remote identifier does not throw (a non-nullish response), if the expected
identifier is absent the relationship field's value is returned unchanged -/
theorem commit_splice_skips_missing_identifier (fields : String → V) (rel : String)
    (response tid : V)
    (hid : remoteTargetId response = Except.ok tid)
    (hf : falsy tid = true) :
    spliceMeta response (fields rel) = Except.ok (fields rel) ∧
    commitSpliceFields fields [(rel, response)] = Except.ok [(rel, fields rel)] := by
  obtain ⟨attrsRaw, hA, htid⟩ : ∃ attrsRaw, remoteMetaAttrs response = Except.ok attrsRaw ∧
      getField attrsRaw "drupal_internal__id" = tid := by
    cases h : remoteMetaAttrs response with
    | error e =>
      rw [remoteTargetId, h] at hid
      exact Except.noConfusion hid
    | ok attrs =>
      rw [remoteTargetId, h] at hid
      exact ⟨attrs, rfl, Except.ok.inj hid⟩
  have hid' : falsy (getField (if falsy attrsRaw then V.objNil else attrsRaw)
      "drupal_internal__id") = true := by
    by_cases hfa : falsy attrsRaw
    · rw [if_pos hfa]; rfl
    · rw [if_neg hfa, htid]; exact hf
  have hsp : spliceMeta response (fields rel) = Except.ok (fields rel) := by
    rw [spliceMeta, hA]
    simp only [if_pos hid']
  exact ⟨hsp, by simp [commitSpliceFields, hsp]⟩

/-- witness for claim C7 -/
theorem commit_splice_skips_missing_identifier_witness :
    remoteTargetId V.objNil = Except.ok V.undef ∧ falsy V.undef = true ∧
      spliceMeta V.objNil ((fun _ => V.str "q-ref") "quantity") =
        Except.ok ((fun _ => V.str "q-ref") "quantity") :=
  ⟨rfl, by decide,
    (commit_splice_skips_missing_identifier (fun _ => V.str "q-ref")
      "quantity" V.objNil V.undef rfl (by decide)).1⟩

/-- claim C6: the code at the failing input — the nested checkout receives
the PREVIOUS value's id, not the new value's id -/
theorem link_checkout_uses_previous_id :
    linkUpdateSingle linkValidate "log" "owner" prevIdent nextIdent =
      Except.ok
        { satelliteCleared := false
          droppedOldDep := true
          checkedOut := some ("log", V.str "log--activity",
            V.str "11111111-1111-1111-1111-111111111111")
          recordedDep := some "owner" } ∧
    getField nextIdent "id" = V.str "22222222-2222-2222-2222-222222222222" ∧
    getField prevIdent "id" ≠ getField nextIdent "id" :=
  ⟨rfl, by decide, by decide⟩
